import Mathlib

/-!
Shallow embedding of the population/contact-graph core of `covasim/base.py`
(classes `BasePeople`, `Contacts`, `Layer`, `TransTree`).

Modelling conventions:
* numpy attribute arrays are `List Int` (one shared integer element kind;
  `np.array(value, dtype=self._dtypes[key])` is the identity when the value
  already has the declared dtype, which is the case on every code path the
  claims exercise; the `_dtypes` table itself is assigned by the subclass
  initializer, which is outside this file's source).
* the Python `__dict__` of a people object is modelled by the partial map
  `dict : String → Option (List Int)` restricted to its array-valued
  attributes; `none` stands for a missing key (`AttributeError` on read).
* exceptions are `Except String` / `Option`: an `error`/`none` result means
  the Python call raised and no state was replaced.
* `keys()` returns `self.keylist.all_states`, modelled by the field `states`.
-/

namespace Covasim

/-- The array-attribute portion of a `BasePeople` object:
`pop_size`, the schema key list (`keylist.all_states`), the array-valued
entries of `__dict__`, and the `_lock` flag. -/
structure People where
  pop_size : Nat
  states : List String
  dict : String → Option (List Int)
  lock : Bool

def defaultPeople : People :=
  { pop_size := 0, states := [], dict := fun _ => none, lock := false }

instance : Inhabited People := ⟨defaultPeople⟩

/-- `BasePeople.__getitem__`: read `self.__dict__[key]`; `none` is the
`AttributeError` path. -/
def getItem (p : People) (key : String) : Option (List Int) :=
  p.dict key

/-- Unconditional `__dict__[key] = value` (used where Python mutates the
entry directly, bypassing `__setitem__`). -/
def dictSet (p : People) (key : String) (value : List Int) : People :=
  { p with dict := fun k => if k = key then some value else p.dict k }

/-- `BasePeople.__setitem__`: if `_lock` is set and the key is not already an
attribute, raise `AttributeError` (`none`); otherwise store the value. -/
def setItem (p : People) (key : String) (value : List Int) : Option People :=
  if p.lock ∧ (p.dict key).isNone then none
  else some (dictSet p key value)

/-- `BasePeople.set(key, value, die)`: read the current array (raising if the
key is absent), coerce the value to the declared dtype (identity here), fail
with a length-mismatch `IndexError` when `die` and the lengths differ, else
store via `__setitem__` (which succeeds: the key exists). -/
def np_set (p : People) (key : String) (value : List Int) (die : Bool) : Except String People :=
  match p.dict key with
  | none => .error "AttributeError"
  | some current =>
    if die ∧ value.length ≠ current.length then .error "Length of new array does not match current"
    else .ok (dictSet p key value)

/-- `BasePeople.true(key)`: `self[key].nonzero()[0]`, the ascending indices of
nonzero entries (`none` when the key is absent). -/
def people_true (p : People) (key : String) : Option (List Nat) :=
  (p.dict key).map fun arr =>
    (List.range arr.length).filter fun i => decide (arr.getD i 0 ≠ 0)

/-- `BasePeople.false(key)`: literally `~self[key].nonzero()[0]` — the
numpy bitwise NOT applied to the array of nonzero *indices*, so each index
`i` becomes `-(i+1)`. -/
def people_false (p : People) (key : String) : Option (List Int) :=
  (p.dict key).map fun arr =>
    ((List.range arr.length).filter fun i => decide (arr.getD i 0 ≠ 0)).map
      fun i => -(Int.ofNat i + 1)

/-- `ndarray.resize(n, refcheck=False)`: truncate or zero-pad to length `n`. -/
def np_resize (arr : List Int) (n : Nat) : List Int :=
  arr.take n ++ List.replicate (n - arr.length) 0

/-- The per-key loop of `BasePeople.resize`: `self[key].resize(pop_size)`,
raising (`error`) when a key is absent. -/
def resizeLoop (n : Nat) : List String → People → Except String People
  | [], p => .ok p
  | key :: rest, p =>
    match p.dict key with
    | none => .error "AttributeError"
    | some arr => resizeLoop n rest (dictSet p key (np_resize arr n))

/-- `BasePeople.resize(pop_size=None, keys=None)`: default the size to
`len(self)` and the key list to `self.keys()`, set `self.pop_size`, then
resize each listed array in place. -/
def resize (p : People) (popSizeArg : Option Nat) (keysArg : Option (List String)) :
    Except String People :=
  let n := popSizeArg.getD p.pop_size
  let keys := keysArg.getD p.states
  resizeLoop n keys { p with pop_size := n }

/-- The loop of `BasePeople.validate`: for each schema key compare the array
length against `expected_len`; on mismatch raise when `die`, otherwise call
`self.resize(keys=key)`. -/
def validateLoop (expected : Nat) (die : Bool) : List String → People → Except String People
  | [], p => .ok p
  | key :: rest, p =>
    match p.dict key with
    | none => .error "AttributeError"
    | some arr =>
      if arr.length ≠ expected then
        if die then .error "Length of key did not match population size"
        else
          match resize p none (some [key]) with
          | .error e => .error e
          | .ok q => validateLoop expected die rest q
      else validateLoop expected die rest p

/-- `BasePeople.validate(die=True)`: `expected_len = len(self)` is read once,
then every schema key is checked. -/
def validate (p : People) (die : Bool) : Except String People :=
  validateLoop p.pop_size die p.states p

/-- `np.arange(n)` as a list of integers. -/
def intRange (n : Nat) : List Int :=
  (List.range n).map Int.ofNat

/-- The concatenation loop of `BasePeople.__add__`:
`newpeople.set(key, np.concatenate([newpeople[key], people2[key]]), die=False)`
for each schema key, reading the current array from the copy being built and
the second operand's array from `people2`. -/
def addLoop (other : People) : List String → People → Except String People
  | [], p => .ok p
  | key :: rest, p =>
    match p.dict key with
    | none => .error "AttributeError"
    | some cur =>
      match other.dict key with
      | none => .error "AttributeError"
      | some oth =>
        match np_set p key (cur ++ oth) false with
        | .error e => .error e
        | .ok q => addLoop other rest q

/-- `BasePeople.__add__(people2)`: deep-copy `self`, concatenate every schema
attribute with `die=False`, add the population sizes, `validate()` (strict),
then reassign `uid` to `np.arange(len(newpeople))` via `set` (strict). -/
def addPeople (A B : People) : Except String People :=
  match addLoop B A.states A with
  | .error e => .error e
  | .ok np1 =>
    let np2 := { np1 with pop_size := np1.pop_size + B.pop_size }
    match validate np2 true with
    | .error e => .error e
    | .ok np3 => np_set np3 "uid" (intRange np3.pop_size) true

/-- Modelled from the spec: `initialize` "locks the attribute-name set
thereafter (writes to unknown names fail)". The `BasePeople` constructor in
the source sets `_lock = False`; the subclass initializer that flips it to
`True` after creating the attribute arrays is not part of this source file,
so the lock-setting step is taken from the spec sentence. -/
def initializeLock (p : People) : People :=
  { p with lock := true }

/-! ### TransTree (`TransTree.__init__`) -/

/-- The transmission ledger: per-person infection source and infected
targets. -/
structure TransTree where
  sources : List (Option Nat)
  targets : List (List Nat)

/-- `TransTree.__init__(pop_size, sources, targets)`: when `sources`
(resp. `targets`) is not given, preallocate `[None]*pop_size`
(resp. a list of `pop_size` empty lists), or `[]` when no size is given. -/
def transTreeInit (popSize : Option Nat) (sourcesArg : Option (List (Option Nat)))
    (targetsArg : Option (List (List Nat))) : TransTree :=
  let sources := sourcesArg.getD (match popSize with
    | none => []
    | some n => List.replicate n none)
  let targets := targetsArg.getD (match popSize with
    | none => []
    | some n => List.replicate n [])
  { sources := sources, targets := targets }

/-! ### A small heap, for the frame property of `__add__`

`__add__` starts with `newpeople = sc.dcp(self)`, a deep copy allocated as a
fresh object, and every subsequent mutation targets that fresh object. To
state that the operands are untouched we run the same steps over an explicit
heap (`List People` indexed by position): `dcp` appends a copy at index
`h.length`, and each mutating statement writes back to that index. -/

/-- The concatenation loop of `__add__` as heap writes: each iteration reads
the object under construction from its heap slot and writes the updated
object back to the same slot. A raise aborts the remaining writes. -/
def heapAddLoop (np : Nat) (other : People) : List String → List People → List People
  | [], h => h
  | key :: rest, h =>
    let q := h.getD np defaultPeople
    match q.dict key with
    | none => h
    | some cur =>
      match other.dict key with
      | none => h
      | some oth =>
        match np_set q key (cur ++ oth) false with
        | .error _ => h
        | .ok q' => heapAddLoop np other rest (h.set np q')

/-- The tail of `__add__` after the concatenation loop, as heap writes at
slot `np`: write the summed `pop_size`, run strict `validate` (whose result,
on success, is the unchanged object written back), then the strict `uid`
reassignment. A raise leaves the heap as of the last completed write. -/
def heapAddTail (np otherPop : Nat) (h2 : List People) : List People :=
  let q1 := h2.getD np defaultPeople
  let h3 := h2.set np { q1 with pop_size := q1.pop_size + otherPop }
  let q2 := h3.getD np defaultPeople
  match validate q2 true with
  | .error _ => h3
  | .ok q3 =>
    let h4 := h3.set np q3
    match np_set q3 "uid" (intRange q3.pop_size) true with
    | .error _ => h4
    | .ok q4 => h4.set np q4

/-- `BasePeople.__add__` over the heap, for operands at positions `a`, `b`:
`sc.dcp(self)` allocates the deep copy as a fresh object at index
`h.length`, then every mutating statement targets that index. Returns the
final heap (the result object lives at index `h.length`). -/
def heapAdd (h : List People) (a b : Nat) : List People :=
  let selfP := h.getD a defaultPeople
  let otherP := h.getD b defaultPeople
  let np := h.length
  heapAddTail np otherP.pop_size (heapAddLoop np otherP selfP.states (h ++ [selfP]))

/-! ### Contacts and Layer -/

/-- A contact layer: the four edge columns declared by
`keylist.contacts` (`layer_info`). The column set itself (`p1`, `p2`,
`layer`, `beta`) is modelled from the spec, as the `PeopleKeys` defaults
module is outside this source file; `beta` values are modelled as rationals
(the only operation on them here is broadcasting a constant). -/
structure Layer where
  p1 : List Nat
  p2 : List Nat
  layer : List String
  beta : List Rat
deriving DecidableEq

/-- `Layer.__init__(layer_info)`: every declared column starts as a
zero-length array. -/
def emptyLayer : Layer :=
  { p1 := [], p2 := [], layer := [], beta := [] }

/-- `Layer.validate()`: every column's length must equal the length of the
base column `p1` (the dtype checks are static in this model). -/
def layerValidate (L : Layer) : Bool :=
  (L.p2.length == L.p1.length) && (L.layer.length == L.p1.length) &&
    (L.beta.length == L.p1.length)

/-- The `Contacts` dict: layer name to layer, in insertion order. -/
abbrev ContactsDict := List (String × Layer)

/-- Dict lookup by name (the integer-position fallback of
`Contacts.__getitem__` is not exercised by these claims). -/
def cget (g : ContactsDict) (k : String) : Option Layer :=
  (g.find? fun e => e.1 == k).map fun e => e.2

/-- Assignment to an existing key keeps its position. -/
def cset (g : ContactsDict) (k : String) (L : Layer) : ContactsDict :=
  g.map fun e => if e.1 = k then (k, L) else e

/-- One person's contacts dict: layer name to neighbor list (Python dict,
so keys are distinct and iterated in insertion order). -/
abbrev PersonContacts := List (String × List Nat)

/-- `BasePeople.make_edgelist(contacts)`: read `lkeys` from the first
person's dict (`contacts[0]` raises `IndexError` on an empty list). The
per-key bucket initialization `new_contacts[lkey]['p1'] = []` first
evaluates `new_contacts[lkey]` on the fresh empty `Contacts()` dict, and
`Contacts.__getitem__` re-raises `KeyError` for a missing string key (its
integer-position fallback fails on a string), so the first iteration raises
(`none`) whenever `lkeys` is nonempty. When `lkeys` is empty, the person
loop raises `NameError` on the unbound `lkey` as soon as some person dict
is nonempty; only when every person dict is empty does the function return
the (empty) contacts dict. -/
def make_edgelist (contacts : List PersonContacts) : Option ContactsDict :=
  match contacts with
  | [] => none
  | c0 :: _ =>
    match c0.map (fun e => e.1) with
    | _ :: _ => none
    | [] =>
      if contacts.all fun cdict => cdict.isEmpty then some [] else none

/-- The per-layer body of the `new_contacts.items()` loop in
`BasePeople.add_contacts`: the new layer's `layer` column is present (a
`Layer` carries all declared columns); `beta` is filled with
`ones(n) * beta` when its length differs from `n`, where `beta` defaults to
`self.pars['beta_layer'][key]` on first use and then persists across
iterations. The filled layer is concatenated column-wise onto
`self.contacts[lkey]` (a `KeyError`, `none`, when `lkey` is not a live
layer) and the result is validated. -/
def addContactsLayer (key : String) (betaLayer : List (String × Rat))
    (g : ContactsDict) (betaState : Option Rat) (lkey : String) (nl : Layer) :
    Option (ContactsDict × Option Rat) :=
  let n := nl.p1.length
  let betaFill : Option (Layer × Option Rat) :=
    if nl.beta.length ≠ n then
      match betaState with
      | some b => some ({ nl with beta := List.replicate n b }, some b)
      | none =>
        match (betaLayer.find? fun e => e.1 == key).map (fun e => e.2) with
        | none => none
        | some b => some ({ nl with beta := List.replicate n b }, some b)
    else some (nl, betaState)
  match betaFill with
  | none => none
  | some (nl, betaState) =>
    match cget g lkey with
    | none => none
    | some target =>
      let merged : Layer :=
        { p1 := target.p1 ++ nl.p1, p2 := target.p2 ++ nl.p2,
          layer := target.layer ++ nl.layer, beta := target.beta ++ nl.beta }
      if layerValidate merged then some (cset g lkey merged, betaState)
      else none

/-- The loop over `new_contacts.items()` in `add_contacts`. -/
def addContactsLoop (key : String) (betaLayer : List (String × Rat)) :
    List (String × Layer) → ContactsDict → Option Rat → Option ContactsDict
  | [], g, _ => some g
  | (lkey, nl) :: rest, g, betaState =>
    match addContactsLayer key betaLayer g betaState lkey nl with
    | none => none
    | some (g2, b2) => addContactsLoop key betaLayer rest g2 b2

/-- `BasePeople.add_contacts(contacts, key=None, beta=None)` for the
list-of-per-person-dicts input shape (the other `isinstance` branches take
other input types and are not exercised by the claims): default `key` to
`contact_keys()[0]` (the first key of `pars['beta_layer']`, raising when
empty), create the layer for `key` if absent, build the edge list, then run
the per-layer loop. -/
def add_contacts (betaLayer : List (String × Rat)) (g : ContactsDict)
    (contacts : List PersonContacts) (keyArg : Option String) (betaArg : Option Rat) :
    Option ContactsDict :=
  let keyOpt := match keyArg with
    | some k => some k
    | none => (betaLayer.map fun e => e.1).head?
  match keyOpt with
  | none => none
  | some key =>
    let g := if (cget g key).isSome then g else g ++ [(key, emptyLayer)]
    match make_edgelist contacts with
    | none => none
    | some newContacts => addContactsLoop key betaLayer newContacts g betaArg

/-! ### remove_duplicates (`BasePeople.remove_duplicates`)

The dataframe is modelled by its `(p1, p2)` columns, the only columns the
operation keys on (`sort_values` and `drop_duplicates` both key on
`['p1','p2']`, and `sort_values` uses an unstable sort, so which payload row
survives among key-duplicates is unspecified in the source). -/

/-- The `(p1, p2)` lexicographic order used by `sort_values(['p1','p2'])`. -/
def edgeLe (a b : Nat × Nat) : Bool :=
  decide (a.1 < b.1 ∨ (a.1 = b.1 ∧ a.2 ≤ b.2))

/-- Sorted insertion for `sortEdges`. -/
def insertSorted (r : Nat × Nat) : List (Nat × Nat) → List (Nat × Nat)
  | [] => [r]
  | x :: xs => if edgeLe r x then r :: x :: xs else x :: insertSorted r xs

/-- `sort_values(['p1','p2'])`: sort by the `(p1, p2)` key. The pandas sort
is unstable (quicksort), so the source fixes only *that* the rows end up
ordered by `(p1, p2)`, not which algorithm produces the order; insertion
sort realizes this. -/
def sortEdges : List (Nat × Nat) → List (Nat × Nat)
  | [] => []
  | x :: xs => insertSorted x (sortEdges xs)

/-- `drop_duplicates(['p1','p2'])`: keep the first occurrence of each key. -/
def dropDupsAux (seen : List (Nat × Nat)) : List (Nat × Nat) → List (Nat × Nat)
  | [] => []
  | r :: rest =>
    if r ∈ seen then dropDupsAux seen rest
    else r :: dropDupsAux (r :: seen) rest

/-- `BasePeople.remove_duplicates(df)`: reassign `p1 := min(p1,p2)` and
`p2 := max(p1,p2)` row-wise, sort by `(p1, p2)`, drop duplicate pairs, then
drop self connections (`p1 == p2`). -/
def remove_duplicates (df : List (Nat × Nat)) : List (Nat × Nat) :=
  let canon := df.map fun r => (min r.1 r.2, max r.1 r.2)
  let sorted := sortEdges canon
  let deduped := dropDupsAux [] sorted
  deduped.filter fun r => decide (r.1 ≠ r.2)

/-- `BasePeople.remove_dynamic_contacts(dynamic_keys)`: for each key, if it
is in `self.pars['contacts']`, `self.contacts.pop(key)` — which raises
`KeyError` (`none`) when the key is not a live layer. Keys outside
`pars['contacts']` are skipped. -/
def remove_dynamic_contacts (parsContacts : List String) (g : ContactsDict) :
    List String → Option ContactsDict
  | [] => some g
  | key :: rest =>
    if key ∈ parsContacts then
      if (cget g key).isSome then
        remove_dynamic_contacts parsContacts (g.filter fun e => decide (e.1 ≠ key)) rest
      else none
    else remove_dynamic_contacts parsContacts g rest

/-! ### Helper lemmas -/

theorem dictSet_dict_self (p : People) (key : String) (v : List Int) :
    (dictSet p key v).dict key = some v := by
  simp [dictSet]

theorem dictSet_dict_ne (p : People) (key k : String) (v : List Int) (h : k ≠ key) :
    (dictSet p key v).dict k = p.dict k := by
  simp [dictSet, h]

theorem dictSet_pop_size (p : People) (key : String) (v : List Int) :
    (dictSet p key v).pop_size = p.pop_size := rfl

theorem dictSet_states (p : People) (key : String) (v : List Int) :
    (dictSet p key v).states = p.states := rfl

theorem np_set_nodie (p : People) (key : String) (v cur : List Int)
    (hcur : p.dict key = some cur) :
    np_set p key v false = .ok (dictSet p key v) := by
  simp [np_set, hcur]

theorem length_np_resize (arr : List Int) (n : Nat) : (np_resize arr n).length = n := by
  simp [np_resize]
  omega

/-! ### Claim theorems -/

/-- C9: initializing the store with population size `n` constructs a
transmission ledger (`TransTree(pop_size=n)`, i.e.
`transTreeInit (some n) none none`) whose `sources` and `targets` lists both
have length `n`, with every source entry `None` and every target entry an
empty list. -/
theorem transTree_init_spec (n : Nat) :
    (transTreeInit (some n) none none).sources.length = n ∧
    (transTreeInit (some n) none none).targets.length = n ∧
    (transTreeInit (some n) none none).sources = List.replicate n none ∧
    (transTreeInit (some n) none none).targets = List.replicate n [] := by
  refine ⟨?_, ?_, rfl, rfl⟩ <;> simp [transTreeInit]

/-- A two-person store with one boolean-like attribute `arr = [0, 1]`,
exhibiting the `false()` bug. -/
def falseBugStore : People :=
  { pop_size := 2, states := ["arr"],
    dict := fun k => if k = "arr" then some [0, 1] else none, lock := true }

/-- C2: on the attribute `[0, 1]`, `true()` correctly returns the truthy
index `[1]`, but `false()` — written `~self[key].nonzero()[0]` — returns the
bitwise complement of the truthy indices, `[-2]`, instead of the falsy index
list `[0]`. -/
theorem false_method_returns_complemented_indices :
    people_true falseBugStore "arr" = some [1] ∧
    people_false falseBugStore "arr" = some [-2] ∧
    people_false falseBugStore "arr" ≠ some [0] := by
  refine ⟨?_, ?_, ?_⟩ <;> decide

/-- C7: once the store's key set is locked after initialization, an item
write to a name that is not an existing attribute raises (`none`), while a
write to an existing attribute name succeeds and replaces that entry,
leaving every other entry unchanged. -/
theorem locked_setitem_spec (p : People) (key : String) (v : List Int) :
    (p.dict key = none → setItem (initializeLock p) key v = none) ∧
    (∀ a, p.dict key = some a →
      setItem (initializeLock p) key v = some (dictSet (initializeLock p) key v) ∧
      (dictSet (initializeLock p) key v).dict key = some v ∧
      ∀ k, k ≠ key → (dictSet (initializeLock p) key v).dict k = p.dict k) := by
  constructor
  · intro hnone
    simp [setItem, initializeLock, hnone]
  · intro a ha
    refine ⟨?_, dictSet_dict_self _ _ _, fun k hk => dictSet_dict_ne _ _ _ _ hk⟩
    simp [setItem, initializeLock, ha]

/-- A concrete store for the C7 witness. -/
def lockWitnessStore : People :=
  { pop_size := 1, states := ["uid"],
    dict := fun k => if k = "uid" then some [0] else none, lock := false }

/-- C7 witness: at the concrete locked store, writing to the unknown name
`"zzz"` fails and writing to the existing name `"uid"` succeeds. -/
theorem locked_setitem_spec_witness :
    (lockWitnessStore.dict "zzz" = none ∧
      setItem (initializeLock lockWitnessStore) "zzz" [5] = none) ∧
    (lockWitnessStore.dict "uid" = some [0] ∧
      setItem (initializeLock lockWitnessStore) "uid" [5] =
        some (dictSet (initializeLock lockWitnessStore) "uid" [5])) :=
  ⟨⟨by decide, (locked_setitem_spec lockWitnessStore "zzz" [5]).1 (by decide)⟩,
   ⟨by decide, ((locked_setitem_spec lockWitnessStore "uid" [5]).2 [0] (by decide)).1⟩⟩

/-- C4: `set(name, values)` on an existing attribute whose current array
length differs from the new one fails with the length-mismatch `IndexError`
when `die=True` (replacing nothing, since the raise carries no new state),
and succeeds with `die=False`, replacing exactly the named array. -/
theorem set_length_mismatch_spec (p : People) (key : String) (v cur : List Int)
    (hcur : p.dict key = some cur) (hcurpop : cur.length = p.pop_size)
    (hlen : v.length ≠ p.pop_size) :
    np_set p key v true = .error "Length of new array does not match current" ∧
    np_set p key v false = .ok (dictSet p key v) ∧
    (dictSet p key v).dict key = some v ∧
    (∀ k, k ≠ key → (dictSet p key v).dict k = p.dict k) ∧
    (dictSet p key v).pop_size = p.pop_size := by
  have hlen' : v.length ≠ cur.length := fun h => hlen (h.trans hcurpop)
  refine ⟨?_, np_set_nodie p key v cur hcur, dictSet_dict_self _ _ _,
    fun k hk => dictSet_dict_ne _ _ _ _ hk, rfl⟩
  simp [np_set, hcur, hlen']

/-- A concrete store for the C4 witness. -/
def setWitnessStore : People :=
  { pop_size := 2, states := ["uid", "age"],
    dict := fun k =>
      if k = "uid" then some [0, 1] else if k = "age" then some [30, 40] else none,
    lock := true }

/-- C4 witness: on the concrete two-person store, setting `age` to a
three-element array fails strictly and succeeds with the override. -/
theorem set_length_mismatch_spec_witness :
    setWitnessStore.dict "age" = some [30, 40] ∧
    ([30, 40] : List Int).length = setWitnessStore.pop_size ∧
    ([1, 2, 3] : List Int).length ≠ setWitnessStore.pop_size ∧
    np_set setWitnessStore "age" [1, 2, 3] true =
      .error "Length of new array does not match current" ∧
    np_set setWitnessStore "age" [1, 2, 3] false =
      .ok (dictSet setWitnessStore "age" [1, 2, 3]) :=
  ⟨by decide, by decide, by decide,
   (set_length_mismatch_spec setWitnessStore "age" [1, 2, 3] [30, 40]
      (by decide) (by decide) (by decide)).1,
   (set_length_mismatch_spec setWitnessStore "age" [1, 2, 3] [30, 40]
      (by decide) (by decide) (by decide)).2.1⟩

/-- C8 counterexample: removing the dynamic key `"x"` when `"x"` is a live
layer but does *not* appear in `pars['contacts']` leaves the layer in place —
the claim as stated (removal succeeds regardless of the configured
contact-layer parameter list) is false. -/
theorem remove_dynamic_skips_unconfigured_key :
    remove_dynamic_contacts [] [("x", emptyLayer)] ["x"] = some [("x", emptyLayer)] ∧
    cget [("x", emptyLayer)] "x" = some emptyLayer := by
  refine ⟨?_, ?_⟩ <;> decide

/-- The per-person adjacency input of C6: three people, all in layer `h`. -/
def adjacencyExample : List PersonContacts :=
  [[("h", [1, 2])], [("h", [0])], [("h", [0])]]

/-- C6: on the 3-person adjacency list `[{'h':[1,2]}, {'h':[0]}, {'h':[0]}]`,
`make_edgelist` raises `KeyError('h')` at its first bucket initialization
(`new_contacts[lkey]['p1'] = []` on the fresh empty `Contacts` dict), so
`add_contacts` crashes instead of yielding the claimed household layer —
evaluated here at the failing input. -/
theorem add_contacts_adjacency_raises :
    make_edgelist adjacencyExample = none ∧
    add_contacts [("h", 1)] [("h", emptyLayer)] adjacencyExample none none = none := by
  refine ⟨?_, ?_⟩ <;> decide

/-- Entries surviving `remove_dynamic_contacts` were already entries of the
input dict: each step either keeps the dict or filters it. -/
theorem remove_dynamic_contacts_subset (parsContacts : List String) :
    ∀ (keys : List String) (g g' : ContactsDict),
      remove_dynamic_contacts parsContacts g keys = some g' → ∀ e ∈ g', e ∈ g := by
  intro keys
  induction keys with
  | nil =>
    intro g g' h e he
    simp only [remove_dynamic_contacts, Option.some.injEq] at h
    exact h ▸ he
  | cons key rest ih =>
    intro g g' h e he
    simp only [remove_dynamic_contacts] at h
    by_cases hmem : key ∈ parsContacts
    · simp only [hmem, if_pos] at h
      by_cases hlive : (cget g key).isSome
      · rw [if_pos hlive] at h
        have := ih _ _ h e he
        exact List.mem_of_mem_filter this
      · rw [if_neg hlive] at h
        exact absurd h (by simp)
    · simp only [hmem, if_neg, if_false] at h
      exact ih _ _ h e he

/-- `cget` misses exactly when no entry carries the key. -/
theorem cget_eq_none_iff (g : ContactsDict) (k : String) :
    cget g k = none ↔ ∀ e ∈ g, e.1 ≠ k := by
  simp only [cget, Option.map_eq_none', List.find?_eq_none]
  constructor
  · intro h e he
    simpa using h e he
  · intro h e he
    simpa using h e he

/-- C8 (amended): after a successful `remove_dynamic_contacts` call, every
requested key that appears in the configured contact-layer parameter list
(`pars['contacts']`) is absent from the layer mapping; keys outside that
list are skipped rather than removed. -/
theorem remove_dynamic_removes_configured (parsContacts : List String)
    (keys : List String) (g g' : ContactsDict)
    (h : remove_dynamic_contacts parsContacts g keys = some g') :
    ∀ k ∈ keys, k ∈ parsContacts → cget g' k = none := by
  induction keys generalizing g with
  | nil => intro k hk; exact absurd hk (List.not_mem_nil k)
  | cons key rest ih =>
    intro k hk hkpars
    simp only [remove_dynamic_contacts] at h
    rcases List.mem_cons.mp hk with hk | hk
    · subst hk
      rw [if_pos hkpars] at h
      by_cases hlive : (cget g k).isSome
      · rw [if_pos hlive] at h
        rw [cget_eq_none_iff]
        intro e he
        have hmem := remove_dynamic_contacts_subset parsContacts rest _ _ h e he
        have := List.of_mem_filter hmem
        simpa using this
      · rw [if_neg hlive] at h
        exact absurd h (by simp)
    · by_cases hmem : key ∈ parsContacts
      · rw [if_pos hmem] at h
        by_cases hlive : (cget g key).isSome
        · rw [if_pos hlive] at h
          exact ih _ h k hk hkpars
        · rw [if_neg hlive] at h
          exact absurd h (by simp)
      · rw [if_neg hmem] at h
        exact ih _ h k hk hkpars

/-- C8 witness: with `pars['contacts'] = ['c']` and live layers `c` and `h`,
removing `['c']` succeeds and `c` is gone afterwards. -/
theorem remove_dynamic_removes_configured_witness :
    remove_dynamic_contacts ["c"] [("c", emptyLayer), ("h", emptyLayer)] ["c"] =
      some [("h", emptyLayer)] ∧
    cget [("h", emptyLayer)] "c" = none :=
  ⟨by decide,
   remove_dynamic_removes_configured ["c"] ["c"]
     [("c", emptyLayer), ("h", emptyLayer)] [("h", emptyLayer)]
     (by decide) "c" (by decide) (by decide)⟩

/-! ### Lemmas about the edge sort and deduplication -/

theorem edgeLe_total (a b : Nat × Nat) : edgeLe a b = true ∨ edgeLe b a = true := by
  simp only [edgeLe, decide_eq_true_eq]
  omega

theorem edgeLe_trans {a b c : Nat × Nat} (h1 : edgeLe a b = true)
    (h2 : edgeLe b c = true) : edgeLe a c = true := by
  simp only [edgeLe, decide_eq_true_eq] at h1 h2 ⊢
  omega

theorem mem_insertSorted {x r : Nat × Nat} {l : List (Nat × Nat)} :
    x ∈ insertSorted r l ↔ x = r ∨ x ∈ l := by
  induction l with
  | nil => simp [insertSorted]
  | cons y ys ih =>
    simp only [insertSorted]
    by_cases hle : edgeLe r y = true
    · simp [if_pos hle, List.mem_cons]
    · simp only [if_neg hle, List.mem_cons, ih]
      tauto

theorem pairwise_insertSorted {r : Nat × Nat} {l : List (Nat × Nat)}
    (h : l.Pairwise fun a b => edgeLe a b = true) :
    (insertSorted r l).Pairwise fun a b => edgeLe a b = true := by
  induction l with
  | nil => simp [insertSorted]
  | cons y ys ih =>
    rw [List.pairwise_cons] at h
    simp only [insertSorted]
    by_cases hle : edgeLe r y = true
    · simp only [if_pos hle]
      rw [List.pairwise_cons]
      refine ⟨?_, List.pairwise_cons.mpr h⟩
      intro z hz
      rcases List.mem_cons.mp hz with rfl | hz
      · exact hle
      · exact edgeLe_trans hle (h.1 z hz)
    · simp only [if_neg hle]
      rw [List.pairwise_cons]
      refine ⟨?_, ih h.2⟩
      intro z hz
      rcases mem_insertSorted.mp hz with hzr | hz
      · rw [hzr]
        exact (edgeLe_total r y).resolve_left hle
      · exact h.1 z hz

theorem pairwise_sortEdges (l : List (Nat × Nat)) :
    (sortEdges l).Pairwise fun a b => edgeLe a b = true := by
  induction l with
  | nil => simp [sortEdges]
  | cons x xs ih => exact pairwise_insertSorted ih

theorem mem_sortEdges {x : Nat × Nat} {l : List (Nat × Nat)} :
    x ∈ sortEdges l ↔ x ∈ l := by
  induction l with
  | nil => simp [sortEdges]
  | cons y ys ih =>
    simp only [sortEdges, mem_insertSorted, List.mem_cons, ih]

theorem sortEdges_of_pairwise {l : List (Nat × Nat)}
    (h : l.Pairwise fun a b => edgeLe a b = true) : sortEdges l = l := by
  induction l with
  | nil => rfl
  | cons x xs ih =>
    rw [List.pairwise_cons] at h
    simp only [sortEdges, ih h.2]
    cases xs with
    | nil => rfl
    | cons y ys =>
      simp only [insertSorted, if_pos (h.1 y (List.mem_cons_self y ys))]

theorem dropDupsAux_sublist (seen l : List (Nat × Nat)) :
    List.Sublist (dropDupsAux seen l) l := by
  induction l generalizing seen with
  | nil => simp [dropDupsAux]
  | cons r rest ih =>
    simp only [dropDupsAux]
    by_cases h : r ∈ seen
    · simp only [if_pos h]
      exact (ih seen).cons r
    · simp only [if_neg h]
      exact (ih (r :: seen)).cons₂ r

theorem not_mem_seen_of_mem_dropDupsAux :
    ∀ (l seen : List (Nat × Nat)) (x : Nat × Nat),
      x ∈ dropDupsAux seen l → x ∉ seen := by
  intro l
  induction l with
  | nil => intro seen x hx; simp [dropDupsAux] at hx
  | cons r rest ih =>
    intro seen x hx
    simp only [dropDupsAux] at hx
    by_cases h : r ∈ seen
    · rw [if_pos h] at hx
      exact ih seen x hx
    · rw [if_neg h] at hx
      rcases List.mem_cons.mp hx with rfl | hx
      · exact h
      · intro hseen
        exact ih (r :: seen) x hx (List.mem_cons_of_mem r hseen)

theorem nodup_dropDupsAux : ∀ (l seen : List (Nat × Nat)), (dropDupsAux seen l).Nodup := by
  intro l
  induction l with
  | nil => intro seen; simp [dropDupsAux]
  | cons r rest ih =>
    intro seen
    simp only [dropDupsAux]
    by_cases h : r ∈ seen
    · rw [if_pos h]
      exact ih seen
    · rw [if_neg h]
      refine List.nodup_cons.mpr ⟨?_, ih (r :: seen)⟩
      intro hmem
      exact not_mem_seen_of_mem_dropDupsAux rest (r :: seen) r hmem
        (List.mem_cons_self r seen)

theorem dropDupsAux_eq_self :
    ∀ (l seen : List (Nat × Nat)), l.Nodup → (∀ x ∈ l, x ∉ seen) →
      dropDupsAux seen l = l := by
  intro l
  induction l with
  | nil => intro seen _ _; rfl
  | cons r rest ih =>
    intro seen hnd hseen
    rw [List.nodup_cons] at hnd
    simp only [dropDupsAux, if_neg (hseen r (List.mem_cons_self r rest))]
    congr 1
    refine ih (r :: seen) hnd.2 ?_
    intro x hx
    rw [List.mem_cons]
    rintro (rfl | hmem)
    · exact hnd.1 hx
    · exact hseen x (List.mem_cons_of_mem r hx) hmem

/-- Every row of `remove_duplicates df` is canonical: `p1 ≤ p2`. -/
theorem remove_duplicates_canonical {df : List (Nat × Nat)} :
    ∀ r ∈ remove_duplicates df, r.1 ≤ r.2 := by
  intro r hr
  have h1 : r ∈ dropDupsAux [] (sortEdges (df.map fun s => (min s.1 s.2, max s.1 s.2))) :=
    List.mem_of_mem_filter hr
  have h2 := (dropDupsAux_sublist _ _).mem h1
  have h3 := mem_sortEdges.mp h2
  rcases List.mem_map.mp h3 with ⟨s, _, hseq⟩
  rw [← hseq]
  exact min_le_max

/-- A table that is already canonical, sorted, duplicate-free and
self-pair-free is a fixed point of `remove_duplicates`. -/
theorem remove_duplicates_eq_self {l : List (Nat × Nat)}
    (hc : ∀ r ∈ l, r.1 ≤ r.2) (hp : l.Pairwise fun a b => edgeLe a b = true)
    (hn : l.Nodup) (hs : ∀ r ∈ l, r.1 ≠ r.2) :
    remove_duplicates l = l := by
  have hmap : (l.map fun r => (min r.1 r.2, max r.1 r.2)) = l := by
    have : ∀ r ∈ l, (min r.1 r.2, max r.1 r.2) = (id r : Nat × Nat) := by
      intro r hr
      have h := hc r hr
      simp [min_eq_left h, max_eq_right h]
    rw [List.map_congr_left this, List.map_id]
  unfold remove_duplicates
  simp only [hmap, sortEdges_of_pairwise hp,
    dropDupsAux_eq_self _ _ hn (by intro x _ hx; exact (List.not_mem_nil x) hx)]
  refine List.filter_eq_self.mpr ?_
  intro a ha
  exact decide_eq_true (hs a ha)

/-- C3: `remove_duplicates` is idempotent; its result has no self-pairs,
every row canonicalized with `p1 ≤ p2`, no two rows with the same unordered
endpoint pair (no duplicate rows, and no pair of mutually mirrored rows),
and the rows sorted by `(p1, p2)`. -/
theorem remove_duplicates_spec (df : List (Nat × Nat)) :
    remove_duplicates (remove_duplicates df) = remove_duplicates df ∧
    (∀ r ∈ remove_duplicates df, r.1 ≠ r.2 ∧ r.1 ≤ r.2) ∧
    (remove_duplicates df).Nodup ∧
    (∀ a ∈ remove_duplicates df, ∀ b ∈ remove_duplicates df,
      a.1 = b.2 → a.2 = b.1 → a = b) ∧
    (remove_duplicates df).Pairwise fun a b => edgeLe a b = true := by
  have hcanon := @remove_duplicates_canonical df
  have hne : ∀ r ∈ remove_duplicates df, r.1 ≠ r.2 := by
    intro r hr
    have := List.of_mem_filter hr
    exact of_decide_eq_true this
  have hsub : List.Sublist (remove_duplicates df)
      (sortEdges (df.map fun s => (min s.1 s.2, max s.1 s.2))) :=
    (List.filter_sublist _).trans (dropDupsAux_sublist _ _)
  have hpair : (remove_duplicates df).Pairwise fun a b => edgeLe a b = true :=
    (pairwise_sortEdges _).sublist hsub
  have hnodup : (remove_duplicates df).Nodup :=
    ((nodup_dropDupsAux _ _).sublist (List.filter_sublist _))
  refine ⟨remove_duplicates_eq_self hcanon hpair hnodup hne, fun r hr => ⟨hne r hr, hcanon r hr⟩,
    hnodup, ?_, hpair⟩
  · intro a ha b hb hab1 hab2
    have h1 := hcanon a ha
    have h2 := hcanon b hb
    rcases a with ⟨a1, a2⟩
    rcases b with ⟨b1, b2⟩
    simp only at h1 h2 hab1 hab2
    have e1 : a1 = b1 := by omega
    have e2 : a2 = b2 := by omega
    rw [e1, e2]

/-! ### Lemmas about validate -/

/-- Strict `validate` passes untouched when every listed key holds an array
of the expected length. -/
theorem validateLoop_true_ok (expected : Nat) :
    ∀ (keys : List String) (p : People),
      (∀ k ∈ keys, ∃ arr, p.dict k = some arr ∧ arr.length = expected) →
      validateLoop expected true keys p = .ok p := by
  intro keys
  induction keys with
  | nil => intro p _; rfl
  | cons key rest ih =>
    intro p hall
    obtain ⟨arr, harr, hlen⟩ := hall key (List.mem_cons_self key rest)
    have step : validateLoop expected true (key :: rest) p =
        validateLoop expected true rest p := by
      simp [validateLoop, harr, hlen]
    rw [step]
    exact ih p fun k hk => hall k (List.mem_cons_of_mem key hk)

/-- Strict `validate` raises as soon as some listed key's array length
differs from the expected length (all keys being present). -/
theorem validateLoop_true_error (expected : Nat) :
    ∀ (keys : List String) (p : People),
      (∀ k ∈ keys, (p.dict k).isSome = true) →
      (∃ k ∈ keys, ((p.dict k).getD []).length ≠ expected) →
      ∃ e, validateLoop expected true keys p = .error e := by
  intro keys
  induction keys with
  | nil =>
    intro p _ hex
    obtain ⟨k, hk, _⟩ := hex
    exact absurd hk (List.not_mem_nil k)
  | cons key rest ih =>
    intro p hall hex
    obtain ⟨arr, harr⟩ := Option.isSome_iff_exists.mp
      (hall key (List.mem_cons_self key rest))
    by_cases hlen : arr.length = expected
    · obtain ⟨k, hk, hkbad⟩ := hex
      rcases List.mem_cons.mp hk with rfl | hk
      · rw [harr] at hkbad
        exact absurd hlen (by simpa using hkbad)
      · have step : validateLoop expected true (key :: rest) p =
            validateLoop expected true rest p := by
          simp [validateLoop, harr, hlen]
        rw [step]
        exact ih p (fun j hj => hall j (List.mem_cons_of_mem key hj)) ⟨k, hk, hkbad⟩
    · refine ⟨"Length of key did not match population size", ?_⟩
      simp [validateLoop, harr, hlen]

/-- Non-strict `validate` self-heals: it never raises when every listed key
is present, and afterwards every listed array has the expected length. -/
theorem validateLoop_false_ok (expected : Nat) :
    ∀ (keys : List String) (p : People), p.pop_size = expected →
      (∀ k ∈ keys, (p.dict k).isSome = true) →
      ∃ q, validateLoop expected false keys p = .ok q ∧
        q.pop_size = expected ∧ q.states = p.states ∧
        (∀ k, k ∉ keys → q.dict k = p.dict k) ∧
        (∀ k ∈ keys, ∃ arr, q.dict k = some arr ∧ arr.length = expected) := by
  intro keys
  induction keys with
  | nil =>
    intro p hpop _
    exact ⟨p, rfl, hpop, rfl, fun _ _ => rfl, fun k hk => absurd hk (List.not_mem_nil k)⟩
  | cons key rest ih =>
    intro p hpop hall
    obtain ⟨arr, harr⟩ := Option.isSome_iff_exists.mp
      (hall key (List.mem_cons_self key rest))
    by_cases hlen : arr.length = expected
    · have step : validateLoop expected false (key :: rest) p =
          validateLoop expected false rest p := by
        simp [validateLoop, harr, hlen]
      obtain ⟨q, hq, hqpop, hqstates, hout, hin⟩ :=
        ih p hpop fun k hk => hall k (List.mem_cons_of_mem key hk)
      refine ⟨q, step ▸ hq, hqpop, hqstates, ?_, ?_⟩
      · intro k hk
        exact hout k fun hkr => hk (List.mem_cons_of_mem key hkr)
      · intro k hk
        rcases List.mem_cons.mp hk with rfl | hk
        · by_cases hkr : k ∈ rest
          · exact hin k hkr
          · exact ⟨arr, (hout k hkr).trans harr, hlen⟩
        · exact hin k hk
    · have hres : resize p none (some [key]) =
          .ok (dictSet { p with pop_size := p.pop_size } key (np_resize arr p.pop_size)) := by
        simp [resize, resizeLoop, harr]
      have step : validateLoop expected false (key :: rest) p =
          validateLoop expected false rest
            (dictSet { p with pop_size := p.pop_size } key (np_resize arr p.pop_size)) := by
        simp [validateLoop, harr, hlen, hres]
      set p2 := dictSet { p with pop_size := p.pop_size } key (np_resize arr p.pop_size) with hp2
      have hp2pop : p2.pop_size = expected := hpop
      have hp2all : ∀ k ∈ rest, (p2.dict k).isSome = true := by
        intro k hk
        by_cases hkk : k = key
        · rw [hp2, hkk, dictSet_dict_self]
          rfl
        · rw [hp2, dictSet_dict_ne _ _ _ _ hkk]
          exact hall k (List.mem_cons_of_mem key hk)
      obtain ⟨q, hq, hqpop, hqstates, hout, hin⟩ := ih p2 hp2pop hp2all
      refine ⟨q, step ▸ hq, hqpop, hqstates.trans rfl, ?_, ?_⟩
      · intro k hk
        have hkkey : k ≠ key := fun h => hk (h ▸ List.mem_cons_self key rest)
        have := hout k fun hkr => hk (List.mem_cons_of_mem key hkr)
        rw [this, hp2, dictSet_dict_ne _ _ _ _ hkkey]
      · intro k hk
        rcases List.mem_cons.mp hk with rfl | hk
        · by_cases hkr : k ∈ rest
          · exact hin k hkr
          · refine ⟨np_resize arr p.pop_size, (hout k hkr).trans ?_, ?_⟩
            · rw [hp2, dictSet_dict_self]
            · rw [length_np_resize, hpop]
        · exact hin k hk

/-- C5: when every schema attribute is present, non-strict `validate`
(`die=False`) never raises, preserves `pop_size`, and afterwards every
schema array has length exactly `pop_size` (resized via truncation or
zero-padding); strict `validate` (`die=True`) raises a length-mismatch
error whenever some schema array's length differs from `pop_size`. -/
theorem validate_spec (p : People)
    (hp : ∀ k ∈ p.states, (p.dict k).isSome = true) :
    (∃ q, validate p false = .ok q ∧ q.pop_size = p.pop_size ∧
      ∀ k ∈ p.states, ∃ arr, q.dict k = some arr ∧ arr.length = p.pop_size) ∧
    ((∃ k ∈ p.states, ((p.dict k).getD []).length ≠ p.pop_size) →
      ∃ e, validate p true = .error e) := by
  constructor
  · obtain ⟨q, hq, hqpop, _, _, hin⟩ := validateLoop_false_ok p.pop_size p.states p rfl hp
    exact ⟨q, hq, hqpop, hin⟩
  · intro hex
    exact validateLoop_true_error p.pop_size p.states p hp hex

/-- A store with a too-short `uid` array and a too-long `age` array, for the
C5 witness. -/
def validateWitnessStore : People :=
  { pop_size := 3, states := ["uid", "age"],
    dict := fun k =>
      if k = "uid" then some [0, 1] else if k = "age" then some [30, 40, 50, 60] else none,
    lock := true }

/-- C5 witness: the concrete mismatched store satisfies the hypotheses, so
non-strict validation heals it and strict validation raises. -/
theorem validate_spec_witness :
    (∀ k ∈ validateWitnessStore.states, (validateWitnessStore.dict k).isSome = true) ∧
    (∃ k ∈ validateWitnessStore.states,
      ((validateWitnessStore.dict k).getD []).length ≠ validateWitnessStore.pop_size) ∧
    ((∃ q, validate validateWitnessStore false = .ok q ∧
        q.pop_size = validateWitnessStore.pop_size ∧
        ∀ k ∈ validateWitnessStore.states,
          ∃ arr, q.dict k = some arr ∧ arr.length = validateWitnessStore.pop_size) ∧
      ((∃ k ∈ validateWitnessStore.states,
          ((validateWitnessStore.dict k).getD []).length ≠ validateWitnessStore.pop_size) →
        ∃ e, validate validateWitnessStore true = .error e)) :=
  ⟨by decide, by decide, validate_spec validateWitnessStore (by decide)⟩

/-! ### Lemmas about the combine operation -/

theorem length_intRange (n : Nat) : (intRange n).length = n := by
  simp [intRange]

/-- The concatenation loop of `__add__` succeeds when every key (with no
duplicates) is present in both operands, and afterwards each processed key
holds the concatenation while all other entries are untouched. -/
theorem addLoop_ok (B : People) :
    ∀ (keys : List String) (p : People), keys.Nodup →
      (∀ k ∈ keys, (p.dict k).isSome = true) →
      (∀ k ∈ keys, (B.dict k).isSome = true) →
      ∃ q, addLoop B keys p = .ok q ∧
        q.pop_size = p.pop_size ∧ q.states = p.states ∧
        (∀ k, k ∉ keys → q.dict k = p.dict k) ∧
        (∀ k ∈ keys, q.dict k = some ((p.dict k).getD [] ++ (B.dict k).getD [])) := by
  intro keys
  induction keys with
  | nil =>
    intro p _ _ _
    exact ⟨p, rfl, rfl, rfl, fun _ _ => rfl, fun k hk => absurd hk (List.not_mem_nil k)⟩
  | cons key rest ih =>
    intro p hnd hp hB
    rw [List.nodup_cons] at hnd
    obtain ⟨cur, hcur⟩ := Option.isSome_iff_exists.mp (hp key (List.mem_cons_self key rest))
    obtain ⟨oth, hoth⟩ := Option.isSome_iff_exists.mp (hB key (List.mem_cons_self key rest))
    have step : addLoop B (key :: rest) p =
        addLoop B rest (dictSet p key (cur ++ oth)) := by
      simp [addLoop, hcur, hoth, np_set]
    set p2 := dictSet p key (cur ++ oth) with hp2
    have hp2rest : ∀ k ∈ rest, (p2.dict k).isSome = true := by
      intro k hk
      have hkkey : k ≠ key := fun h => hnd.1 (h ▸ hk)
      rw [hp2, dictSet_dict_ne _ _ _ _ hkkey]
      exact hp k (List.mem_cons_of_mem key hk)
    obtain ⟨q, hq, hqpop, hqstates, hout, hin⟩ :=
      ih p2 hnd.2 hp2rest fun k hk => hB k (List.mem_cons_of_mem key hk)
    refine ⟨q, step ▸ hq, hqpop.trans rfl, hqstates.trans rfl, ?_, ?_⟩
    · intro k hk
      have hkkey : k ≠ key := fun h => hk (h ▸ List.mem_cons_self key rest)
      have := hout k fun hkr => hk (List.mem_cons_of_mem key hkr)
      rw [this, hp2, dictSet_dict_ne _ _ _ _ hkkey]
    · intro k hk
      rcases List.mem_cons.mp hk with rfl | hk
      · have := hout k hnd.1
        rw [this, hp2, dictSet_dict_self, hcur, hoth]
        rfl
      · have := hin k hk
        have hkkey : k ≠ key := fun h => hnd.1 (h ▸ hk)
        rw [this, hp2, dictSet_dict_ne _ _ _ _ hkkey]

/-- C1: combining two stores with the same schema (`__add__`) succeeds and
produces a store whose `pop_size` is the sum, whose `uid` array is exactly
`0, 1, ..., len(A)+len(B)-1`, and whose every non-uid schema attribute is
A's array followed by B's array. -/
theorem add_people_spec (A B : People)
    (hnd : A.states.Nodup) (huid : "uid" ∈ A.states)
    (hA : ∀ k ∈ A.states,
      (A.dict k).isSome = true ∧ ((A.dict k).getD []).length = A.pop_size)
    (hB : ∀ k ∈ A.states,
      (B.dict k).isSome = true ∧ ((B.dict k).getD []).length = B.pop_size) :
    ∃ C, addPeople A B = .ok C ∧
      C.pop_size = A.pop_size + B.pop_size ∧
      C.dict "uid" = some (intRange (A.pop_size + B.pop_size)) ∧
      ∀ k ∈ A.states, k ≠ "uid" →
        C.dict k = some ((A.dict k).getD [] ++ (B.dict k).getD []) := by
  obtain ⟨P1, hP1, hpop, hstates, hout, hin⟩ :=
    addLoop_ok B A.states A hnd (fun k hk => (hA k hk).1) fun k hk => (hB k hk).1
  set np2 : People := { P1 with pop_size := P1.pop_size + B.pop_size } with hnp2
  have hnp2pop : np2.pop_size = A.pop_size + B.pop_size := by
    rw [hnp2]
    simp [hpop]
  have hnp2states : np2.states = A.states := hstates
  have hnp2in : ∀ k ∈ A.states,
      ∃ arr, np2.dict k = some arr ∧ arr.length = np2.pop_size := by
    intro k hk
    refine ⟨(A.dict k).getD [] ++ (B.dict k).getD [], hin k hk, ?_⟩
    rw [List.length_append, (hA k hk).2, (hB k hk).2, hnp2pop]
  have hval : validate np2 true = .ok np2 := by
    unfold validate
    rw [hnp2states]
    exact validateLoop_true_ok np2.pop_size A.states np2 hnp2in
  obtain ⟨uarr, huarr, hulen⟩ := hnp2in "uid" huid
  have huarr' : P1.dict "uid" = some uarr := huarr
  have hulen' : uarr.length = P1.pop_size + B.pop_size := hulen
  have hset : np_set np2 "uid" (intRange np2.pop_size) true =
      .ok (dictSet np2 "uid" (intRange np2.pop_size)) := by
    simp [np_set, huarr', length_intRange, hulen']
  have hrun : addPeople A B = .ok (dictSet np2 "uid" (intRange np2.pop_size)) := by
    unfold addPeople
    rw [hP1]
    show (match validate np2 true with
      | Except.error e => Except.error e
      | Except.ok np3 => np_set np3 "uid" (intRange np3.pop_size) true) =
      Except.ok (dictSet np2 "uid" (intRange np2.pop_size))
    rw [hval]
    exact hset
  refine ⟨dictSet np2 "uid" (intRange np2.pop_size), hrun, ?_, ?_, ?_⟩
  · rw [dictSet_pop_size, hnp2pop]
  · rw [dictSet_dict_self, hnp2pop]
  · intro k hk hkuid
    rw [dictSet_dict_ne _ _ _ _ hkuid]
    exact hin k hk

/-- First operand store for the C1 witness: two people. -/
def addWitnessA : People :=
  { pop_size := 2, states := ["uid", "age"],
    dict := fun k =>
      if k = "uid" then some [0, 1] else if k = "age" then some [30, 40] else none,
    lock := true }

/-- Second operand store for the C1 witness: one person. -/
def addWitnessB : People :=
  { pop_size := 1, states := ["uid", "age"],
    dict := fun k =>
      if k = "uid" then some [0] else if k = "age" then some [7] else none,
    lock := true }

/-- C1 witness: combining the concrete two-person and one-person stores. -/
theorem add_people_spec_witness :
    addWitnessA.states.Nodup ∧ "uid" ∈ addWitnessA.states ∧
    (∀ k ∈ addWitnessA.states,
      (addWitnessA.dict k).isSome = true ∧
      ((addWitnessA.dict k).getD []).length = addWitnessA.pop_size) ∧
    (∀ k ∈ addWitnessA.states,
      (addWitnessB.dict k).isSome = true ∧
      ((addWitnessB.dict k).getD []).length = addWitnessB.pop_size) ∧
    (∃ C, addPeople addWitnessA addWitnessB = .ok C ∧
      C.pop_size = addWitnessA.pop_size + addWitnessB.pop_size ∧
      C.dict "uid" = some (intRange (addWitnessA.pop_size + addWitnessB.pop_size)) ∧
      ∀ k ∈ addWitnessA.states, k ≠ "uid" →
        C.dict k = some ((addWitnessA.dict k).getD [] ++ (addWitnessB.dict k).getD [])) :=
  ⟨by decide, by decide, by decide, by decide,
   add_people_spec addWitnessA addWitnessB (by decide) (by decide) (by decide) (by decide)⟩

/-! ### Lemmas about the heap embedding of the combine operation -/

theorem getD_set_ne_heap (hh : List People) (n i : Nat) (q : People) (hni : n ≠ i) :
    (hh.set n q).getD i defaultPeople = hh.getD i defaultPeople := by
  rw [List.getD_eq_getElem?_getD, List.getD_eq_getElem?_getD, List.getElem?_set_ne hni]

theorem heapAddLoop_getD_ne (np : Nat) (other : People) :
    ∀ (keys : List String) (hh : List People) (i : Nat), np ≠ i →
      (heapAddLoop np other keys hh).getD i defaultPeople = hh.getD i defaultPeople := by
  intro keys
  induction keys with
  | nil => intro hh i _; rfl
  | cons key rest ih =>
    intro hh i hni
    have hmatch : ∀ (r : Except String People),
        (match r with
         | Except.error _ => hh
         | Except.ok q2 => heapAddLoop np other rest (hh.set np q2)).getD i defaultPeople
          = hh.getD i defaultPeople := by
      intro r
      cases r with
      | error e => rfl
      | ok q2 => exact (ih (hh.set np q2) i hni).trans (getD_set_ne_heap hh np i q2 hni)
    simp only [heapAddLoop]
    cases (hh.getD np defaultPeople).dict key with
    | none => rfl
    | some cur =>
      cases other.dict key with
      | none => rfl
      | some oth => exact hmatch _

theorem heapAddLoop_length (np : Nat) (other : People) :
    ∀ (keys : List String) (hh : List People),
      (heapAddLoop np other keys hh).length = hh.length := by
  intro keys
  induction keys with
  | nil => intro hh; rfl
  | cons key rest ih =>
    intro hh
    have hmatch : ∀ (r : Except String People),
        (match r with
         | Except.error _ => hh
         | Except.ok q2 => heapAddLoop np other rest (hh.set np q2)).length = hh.length := by
      intro r
      cases r with
      | error e => rfl
      | ok q2 => exact (ih (hh.set np q2)).trans (List.length_set ..)
    simp only [heapAddLoop]
    cases (hh.getD np defaultPeople).dict key with
    | none => rfl
    | some cur =>
      cases other.dict key with
      | none => rfl
      | some oth => exact hmatch _

theorem heapAddTail_getD_ne (np otherPop : Nat) (h2 : List People) (i : Nat)
    (hni : np ≠ i) :
    (heapAddTail np otherPop h2).getD i defaultPeople = h2.getD i defaultPeople := by
  have hinner : ∀ (h3 : List People),
      h3.getD i defaultPeople = h2.getD i defaultPeople →
      ∀ (q3 : People) (r2 : Except String People),
      (match r2 with
       | Except.error _ => h3.set np q3
       | Except.ok q4 => (h3.set np q3).set np q4).getD i defaultPeople
        = h2.getD i defaultPeople := by
    intro h3 hh3 q3 r2
    cases r2 with
    | error e => exact (getD_set_ne_heap _ _ _ _ hni).trans hh3
    | ok q4 =>
      exact (getD_set_ne_heap _ _ _ _ hni).trans
        ((getD_set_ne_heap _ _ _ _ hni).trans hh3)
  have hstep : ∀ (h3 : List People),
      h3.getD i defaultPeople = h2.getD i defaultPeople →
      ∀ (r : Except String People),
      (match r with
       | Except.error _ => h3
       | Except.ok q3 =>
         match np_set q3 "uid" (intRange q3.pop_size) true with
         | Except.error _ => h3.set np q3
         | Except.ok q4 => (h3.set np q3).set np q4).getD i defaultPeople
        = h2.getD i defaultPeople := by
    intro h3 hh3 r
    cases r with
    | error e => exact hh3
    | ok q3 => exact hinner h3 hh3 q3 (np_set q3 "uid" (intRange q3.pop_size) true)
  unfold heapAddTail
  exact hstep _ (getD_set_ne_heap _ _ _ _ hni) _

theorem heapAddTail_length (np otherPop : Nat) (h2 : List People) :
    (heapAddTail np otherPop h2).length = h2.length := by
  have hinner : ∀ (h3 : List People), h3.length = h2.length →
      ∀ (q3 : People) (r2 : Except String People),
      (match r2 with
       | Except.error _ => h3.set np q3
       | Except.ok q4 => (h3.set np q3).set np q4).length = h2.length := by
    intro h3 hh3 q3 r2
    cases r2 with
    | error e => exact (List.length_set ..).trans hh3
    | ok q4 => exact (List.length_set ..).trans ((List.length_set ..).trans hh3)
  have hstep : ∀ (h3 : List People), h3.length = h2.length →
      ∀ (r : Except String People),
      (match r with
       | Except.error _ => h3
       | Except.ok q3 =>
         match np_set q3 "uid" (intRange q3.pop_size) true with
         | Except.error _ => h3.set np q3
         | Except.ok q4 => (h3.set np q3).set np q4).length = h2.length := by
    intro h3 hh3 r
    cases r with
    | error e => exact hh3
    | ok q3 => exact hinner h3 hh3 q3 (np_set q3 "uid" (intRange q3.pop_size) true)
  unfold heapAddTail
  exact hstep _ (List.length_set ..) _

/-- C10: the `+` combination leaves both operand stores unchanged — every
mutation of `__add__` targets the freshly allocated deep copy at slot
`h.length`, so the operand objects at slots `a` and `b` (their attribute
arrays, `pop_size` and `uid` values included) are identical before and
after, and the heap has exactly one new object. -/
theorem heapAdd_frame (h : List People) (a b : Nat) (ha : a < h.length)
    (hb : b < h.length) :
    (heapAdd h a b).getD a defaultPeople = h.getD a defaultPeople ∧
    (heapAdd h a b).getD b defaultPeople = h.getD b defaultPeople ∧
    (heapAdd h a b).length = h.length + 1 := by
  have key : ∀ i : Nat, i < h.length →
      (heapAdd h a b).getD i defaultPeople = h.getD i defaultPeople := by
    intro i hi
    have hni : h.length ≠ i := fun he => absurd (he ▸ hi) (Nat.lt_irrefl i)
    unfold heapAdd
    rw [heapAddTail_getD_ne _ _ _ _ hni, heapAddLoop_getD_ne _ _ _ _ _ hni,
      List.getD_eq_getElem?_getD, List.getD_eq_getElem?_getD,
      List.getElem?_append_left hi]
    rw [← List.getD_eq_getElem?_getD]
  refine ⟨key a ha, key b hb, ?_⟩
  unfold heapAdd
  rw [heapAddTail_length, heapAddLoop_length, List.length_append, List.length_singleton]

/-- Operand stores for the C10 witness. -/
def frameWitnessA : People :=
  { pop_size := 2, states := ["uid", "age"],
    dict := fun k =>
      if k = "uid" then some [0, 1] else if k = "age" then some [30, 40] else none,
    lock := true }

/-- Second operand store for the C10 witness. -/
def frameWitnessB : People :=
  { pop_size := 1, states := ["uid", "age"],
    dict := fun k =>
      if k = "uid" then some [0] else if k = "age" then some [7] else none,
    lock := true }

/-- C10 witness: on a two-object heap, combining slots 0 and 1 leaves both
operand objects unchanged. -/
theorem heapAdd_frame_witness :
    0 < ([frameWitnessA, frameWitnessB] : List People).length ∧
    1 < ([frameWitnessA, frameWitnessB] : List People).length ∧
    ((heapAdd [frameWitnessA, frameWitnessB] 0 1).getD 0 defaultPeople =
      ([frameWitnessA, frameWitnessB] : List People).getD 0 defaultPeople ∧
    (heapAdd [frameWitnessA, frameWitnessB] 0 1).getD 1 defaultPeople =
      ([frameWitnessA, frameWitnessB] : List People).getD 1 defaultPeople ∧
    (heapAdd [frameWitnessA, frameWitnessB] 0 1).length =
      ([frameWitnessA, frameWitnessB] : List People).length + 1) :=
  ⟨by decide, by decide,
   heapAdd_frame [frameWitnessA, frameWitnessB] 0 1 (by decide) (by decide)⟩

end Covasim
